import Mathlib

/-!
Verification development for the macro-analysis dashboard's CSV
normalization pipeline (`src/sector_data_load/RealSector.py`,
`ExternalSector.py`, `PublicFinances.py`).

The pipeline is embedded shallowly:

* pandas cell values are strings; a missing cell (pandas `NaN`) is
  represented by the empty string at the grid level, and the pandas
  `astype(str)` view of a missing cell is the literal string `"nan"`;
* Python floats are modelled by `PyFloat` — an exact rational, `nan`,
  or a signed infinity; values are exact, i.e. float64 binary rounding
  and magnitude overflow are idealized away (no claim in scope depends
  on them);
* `float(...)` / `pd.to_numeric(...)` string parsing is modelled by
  `pyFloat?`: optional sign, decimal digits with an optional fraction
  point and an optional scientific exponent, the case-insensitive
  tokens `nan` / `inf` / `infinity`, surrounding whitespace;
* the dataframe `melt` operations are written out column-major, as
  pandas stacks value columns.
-/

/-- A Python float as used by the pipeline: an exact rational value,
the non-signalling `nan`, or a signed infinity (`inf false` is `+inf`,
`inf true` is `-inf`).  `pd.to_numeric`/`float` can produce infinities
(from the `inf`/`Infinity` spellings), and `dropna` removes only `NaN`
— so retained values are non-NaN but not necessarily finite. -/
inductive PyFloat where
  | nan : PyFloat
  | inf (neg : Bool) : PyFloat
  | num (q : ℚ) : PyFloat
deriving DecidableEq

/-- `float('-x')` negates the parsed magnitude; `nan` stays `nan`,
infinities flip sign. -/
def pyNeg : PyFloat → PyFloat
  | PyFloat.nan => PyFloat.nan
  | PyFloat.inf b => PyFloat.inf (!b)
  | PyFloat.num q => PyFloat.num (-q)

/-- Numeric value of a (decimal digit) character. -/
def charVal (c : Char) : ℕ := c.toNat - 48

/-- All characters are decimal digits. -/
def allDigits (cs : List Char) : Bool := cs.all Char.isDigit

/-- Value of a big-endian decimal digit string (`"123"` ↦ `123`). -/
def digitsToNat (cs : List Char) : ℕ :=
  cs.foldl (fun n c => 10 * n + charVal c) 0

/-- Drop whitespace from both ends of a character list; models the
whitespace tolerance of Python's `float` and of `str.strip`. -/
def trimChars (cs : List Char) : List Char :=
  ((cs.dropWhile Char.isWhitespace).reverse.dropWhile Char.isWhitespace).reverse

/-- `str.strip()` on our character-list model. -/
def strStrip (s : String) : String := String.mk (trimChars s.data)

/-- Parse an unsigned decimal mantissa: digits with an optional single
point, at least one digit overall (`"12"`, `"12.5"`, `"12."`, `".5"`). -/
def parseMantissa (cs : List Char) : Option ℚ :=
  let ip := cs.takeWhile (fun c => c ≠ '.')
  match cs.dropWhile (fun c => c ≠ '.') with
  | [] =>
      if !ip.isEmpty && allDigits ip then some ((digitsToNat ip : ℕ) : ℚ)
      else none
  | _ :: frac =>
      if (!ip.isEmpty || !frac.isEmpty) && allDigits ip && allDigits frac then
        some (mkRat ((digitsToNat ip * 10 ^ frac.length + digitsToNat frac : ℕ) : ℤ)
          (10 ^ frac.length))
      else none

/-- Exponent part of a scientific literal: optional sign then digits. -/
def parseExp (cs : List Char) : Option ℤ :=
  match cs with
  | '+' :: ds => if !ds.isEmpty && allDigits ds then some ((digitsToNat ds : ℕ) : ℤ) else none
  | '-' :: ds => if !ds.isEmpty && allDigits ds then some (-((digitsToNat ds : ℕ) : ℤ)) else none
  | ds => if !ds.isEmpty && allDigits ds then some ((digitsToNat ds : ℕ) : ℤ) else none

/-- Scale a mantissa by a signed power of ten. -/
def applyExp (m : ℚ) : ℤ → ℚ
  | Int.ofNat n => m * 10 ^ n
  | Int.negSucc n => m / 10 ^ (n + 1)

/-- Unsigned decimal literal with an optional `e`/`E` exponent. -/
def pyNumber (cs : List Char) : Option ℚ :=
  let mant := cs.takeWhile (fun c => c ≠ 'e' ∧ c ≠ 'E')
  match cs.dropWhile (fun c => c ≠ 'e' ∧ c ≠ 'E') with
  | [] => parseMantissa mant
  | _ :: ex =>
    match parseMantissa mant, parseExp ex with
    | some m, some k => some (applyExp m k)
    | _, _ => none

/-- Lower-case the ASCII letters that can occur in the special float
tokens (`nan`, `inf`, `infinity`); every other character is kept, so
comparing the lowered text against the lower-case token is exactly
Python's case-insensitive token matching. -/
def asciiLower (c : Char) : Char :=
  if c = 'N' then 'n'
  else if c = 'A' then 'a'
  else if c = 'I' then 'i'
  else if c = 'F' then 'f'
  else if c = 'T' then 't'
  else if c = 'Y' then 'y'
  else c

/-- Unsigned body of a Python float literal: the tokens `nan` (the
`astype(str)` rendering of a missing cell, in any letter case),
`inf`/`infinity` (any case), or a decimal mantissa with optional
exponent. -/
def pyBody (cs : List Char) : Option PyFloat :=
  if cs.map asciiLower = ['n', 'a', 'n'] then some PyFloat.nan
  else if cs.map asciiLower = ['i', 'n', 'f'] ∨
      cs.map asciiLower = ['i', 'n', 'f', 'i', 'n', 'i', 't', 'y'] then
    some (PyFloat.inf false)
  else (pyNumber cs).map PyFloat.num

/-- Signed Python float literal. -/
def pyParse (cs : List Char) : Option PyFloat :=
  match cs with
  | [] => pyBody []
  | c :: rest =>
    if c = '+' then pyBody rest
    else if c = '-' then (pyBody rest).map pyNeg
    else pyBody (c :: rest)

/-- Model of `float(s)` / `pd.to_numeric(s)` on a string: trim
whitespace, then parse a signed decimal literal (optional scientific
exponent) or one of the `nan`/`inf`/`infinity` tokens.  `none` models
the `ValueError` of `float` (resp. the `NaN` produced by
`pd.to_numeric(errors='coerce')` on unparseable text).  Values are
exact rationals: float64 rounding and magnitude overflow are idealized
away, as no claim in scope depends on them; the explicit infinity
spellings are represented by `PyFloat.inf`. -/
def pyFloat? (s : String) : Option PyFloat := pyParse (trimChars s.data)

/-- `str.replace(",", "")`: remove every comma, wherever it occurs. -/
def stripCommas (s : String) : String :=
  String.mk (s.data.filter (fun c => c ≠ ','))

/-- The finite-value reading of the shared coercion
`pd.to_numeric(x.replace(",", ""), errors='coerce')`: the exact
rational when the comma-stripped text parses to a finite number,
`none` when it parses to `NaN`/an infinity or fails.  (Row survival
itself is decided by `cleanNumbers`, which also keeps infinities.) -/
def coerceNumeric (s : String) : Option ℚ :=
  match pyFloat? (stripCommas s) with
  | some (PyFloat.num q) => some q
  | _ => none

/-- One row of the intermediate long table produced by `melt`, before
value coercion: `Category`/`Year` labels plus the raw `Value` text. -/
structure RawRow where
  Category : String
  Year : String
  Value : String
deriving DecidableEq

/-- One row of the canonical tidy table. -/
structure TidyRow where
  Category : String
  Year : String
  Value : PyFloat
deriving DecidableEq

/-- Cell access with the pandas convention that a short (ragged) row is
padded with missing cells; a missing cell is the empty string. -/
def colCell (r : List String) (j : ℕ) : String := r.getD j ""

/-- The `astype(str)` view of a cell: a missing cell (pandas `NaN`)
renders as the string `"nan"`. -/
def cellStr (c : String) : String := if c = "" then "nan" else c

/-- `df_long['Value'] = pd.to_numeric(df_long['Value'].astype(str)
.str.replace(",", ""), errors='coerce')` followed by
`df_long.dropna(subset=['Value'])` (`ExternalSector.py` lines 60–61,
`PublicFinances.py` lines 100–101): unparseable text and `"nan"` cells
become `NaN` and the row is dropped; every other parse — finite
numbers and the `inf`/`Infinity` spellings alike — is retained, since
`dropna` removes only `NaN`. -/
def cleanNumbers (rows : List RawRow) : List TidyRow :=
  rows.filterMap (fun r =>
    match pyFloat? (stripCommas (cellStr r.Value)) with
    | none => none
    | some PyFloat.nan => none
    | some v => some ⟨r.Category, r.Year, v⟩)

/-- `df_long['Value'].astype(str).str.replace(",", "").astype(float)`
(`RealSector.py` line 34): every value must parse with `float` — one
unparseable cell raises `ValueError` and aborts the whole load
(modelled by `none`); a missing cell's `astype(str)` text `"nan"`
parses to `NaN` and is retained. -/
def forceNumbers (rows : List RawRow) : Option (List TidyRow) :=
  rows.mapM (fun r =>
    (pyFloat? (stripCommas (cellStr r.Value))).map (fun v => ⟨r.Category, r.Year, v⟩))

/-- `df.melt(id_vars=[df.columns[0]], var_name='Year',
value_name='Value')`: the first column is the category label, every
other column is a period; pandas stacks the value columns in order
(column-major). -/
def meltFirstCol (header : List String) (rows : List (List String)) : List RawRow :=
  (List.enumFrom 1 (header.drop 1)).flatMap (fun p =>
    rows.map (fun r => ⟨colCell r 0, p.2, colCell r p.1⟩))

/-- `RealSector.load_csv` (lines 24–35) after the file read: strip the
header names, melt on the first column, then force every value through
`float` (no `dropna`, no category filter). -/
def realSectorNormalize (header : List String) (rows : List (List String)) :
    Option (List TidyRow) :=
  forceNumbers (meltFirstCol (header.map strStrip) rows)

/-- `ExternalSector.load_csv` id-column stripping (lines 38–41): drop
the column named `S.N.`, else the one named `S.No.`, if present. -/
def extDropSN (header : List String) (rows : List (List String)) :
    List String × List (List String) :=
  match header.indexOf? "S.N." with
  | some j => (header.eraseIdx j, rows.map (fun r => r.eraseIdx j))
  | none =>
    match header.indexOf? "S.No." with
    | some j => (header.eraseIdx j, rows.map (fun r => r.eraseIdx j))
    | none => (header, rows)

/-- `df.iloc[0].isna().any() or (df.iloc[0] == "Annual").any()`
(`ExternalSector.py` line 44): the first data row is treated as
metadata when any of its cells is missing or any cell equals
`"Annual"`. -/
def extIsMeta (r : List String) : Bool :=
  r.any (fun c => c = "" || c = "Annual")

/-- `ExternalSector.load_csv` metadata-row drop (lines 44–45); `none`
models the `IndexError` that `df.iloc[0]` raises on an empty frame. -/
def extDropMeta (rows : List (List String)) : Option (List (List String)) :=
  match rows with
  | [] => none
  | r :: rest => some (if extIsMeta r then rest else r :: rest)

/-- Modelled from the spec: a cell "looks numeric" when the value
coercer accepts it ("non-numeric-looking" cells are the ones coercion
rejects).  Claim-side notion used to exhibit the C7 counterexample. -/
def numericLooking (c : String) : Bool := (coerceNumeric c).isSome

/-- `ExternalSector.load_csv`, Exports/Imports/Foreign-Employment
branch (lines 35–49 plus the shared coercion at 59–62). -/
def extSimpleNormalize (header : List String) (rows : List (List String)) :
    Option (List TidyRow) :=
  let p := extDropSN header rows
  (extDropMeta p.2).map (fun rows2 => cleanNumbers (meltFirstCol p.1 rows2))

/-- Occurrence of `sub` as a contiguous segment of `l` (Python's
`'tok' in s`). -/
def startsWithL : List Char → List Char → Bool
  | [], _ => true
  | _ :: _, [] => false
  | a :: as, b :: bs => a = b && startsWithL as bs

/-- `sub in s` for character lists. -/
def occursIn (sub : List Char) : List Char → Bool
  | [] => sub.isEmpty
  | c :: rest => startsWithL sub (c :: rest) || occursIn sub rest

/-- `[col.strip() if 'Unnamed' not in col else 'Year' for col in
df.columns]` (`ExternalSector.py` line 54). -/
def usdCols (header : List String) : List String :=
  header.map (fun c => if occursIn "Unnamed".data c.data then "Year" else strStrip c)

/-- `df.melt(id_vars=['Year'], var_name='Category',
value_name='Value')` for the USD-rates table (`ExternalSector.py`
line 55): the year value comes from the column renamed `Year`, every
other column name becomes the `Category`.  `none` models the `KeyError`
when no column is named `Year`. -/
def usdMelt (header : List String) (rows : List (List String)) : Option (List RawRow) :=
  let hs := usdCols header
  (hs.indexOf? "Year").map (fun yIdx =>
    ((List.enumFrom 0 hs).filter (fun p => p.2 ≠ "Year")).flatMap (fun p =>
      rows.map (fun r => ⟨p.2, colCell r yIdx, colCell r p.1⟩)))

/-- `df_long = df_long[df_long['Category'] != 'Middle']`
(`ExternalSector.py` line 57). -/
def usdFiltered (header : List String) (rows : List (List String)) : Option (List RawRow) :=
  (usdMelt header rows).map (fun l => l.filter (fun r => r.Category ≠ "Middle"))

/-- `ExternalSector.load_csv`, USD-conversion-rates branch
(lines 51–57 plus the shared coercion at 59–62). -/
def usdNormalize (header : List String) (rows : List (List String)) :
    Option (List TidyRow) :=
  (usdFiltered header rows).map cleanNumbers

/-- The fixed section headers of the Net-Domestic-Borrowings outline
(`PublicFinances.py` line 84). -/
def sectionHeaders : List String :=
  ["Gross Borrowings", "Payments", "Net Domestic Borrowings (NDB) (A-B)"]

/-- `df_clean['Category'] = (col0 + " " + col1).str.strip()` with the
first two columns `fillna('')`-ed (`PublicFinances.py` lines 73–78):
the combined label of one raw row. -/
def combineLabel (r : List String) : String :=
  strStrip (colCell r 0 ++ " " ++ colCell r 1)

/-- One step of the current-section scan (`PublicFinances.py`
lines 81–90): a section header becomes the new state and its own
category; with an active section, a non-empty label is prefixed by
`"{current_section} - "`; otherwise the label passes through. -/
def hierStep (sec : String) (cat : String) : String × String :=
  if cat ∈ sectionHeaders then (cat, cat)
  else if sec ≠ "" ∧ cat ≠ "" then (sec, sec ++ " - " ++ cat)
  else (sec, cat)

/-- The current-section scan over a list of combined labels, from a
given starting state. -/
def hierGo (sec : String) : List String → List String
  | [] => []
  | cat :: rest => (hierStep sec cat).2 :: hierGo (hierStep sec cat).1 rest

/-- The full scan, starting with no active section
(`current_section = ""`). -/
def hierLabel (cats : List String) : List String := hierGo "" cats

/-- Current-section state after consuming a list of combined labels. -/
def stateAfter (sec : String) : List String → String
  | [] => sec
  | cat :: rest => stateAfter (if cat ∈ sectionHeaders then cat else sec) rest

/-- The most recently matched section header of a label list — the
specification-level description of the scan state ("the most recently
matched section", never cleared once set). -/
def lastHeader : List String → Option String
  | [] => none
  | c :: rest =>
    match lastHeader rest with
    | some h => some h
    | none => if c ∈ sectionHeaders then some c else none

/-- Categories the hierarchical normalizer derives from a raw grid:
combine the two label columns of each row, then run the
current-section scan. -/
def hierCategories (rows : List (List String)) : List String :=
  hierLabel (rows.map combineLabel)

/-- The year tokens used to select value columns
(`PublicFinances.py` line 95). -/
def yearTokens : List String := ["2022", "2023", "2024", "2025"]

/-- `any(yr in col for yr in [...])`: a header names a value column
when it contains one of the year tokens. -/
def isValueCol (name : String) : Bool :=
  yearTokens.any (fun y => occursIn y.data name.data)

/-- `PublicFinances.load_csv`, Net-Domestic-Borrowings branch
(lines 62–101): derive hierarchical categories, melt the year-token
columns, coerce and drop unparseable values. -/
def pfNetBorrowNormalize (header : List String) (rows : List (List String)) :
    List TidyRow :=
  let cats := hierCategories rows
  let cols := (List.enumFrom 0 header).filter (fun p => isValueCol p.2)
  cleanNumbers (cols.flatMap (fun p =>
    (cats.zip rows).map (fun cr => ⟨cr.1, p.2, colCell cr.2 p.1⟩)))

/-- Outcome of a `regression_projection` call. -/
inductive ProjOutcome where
  | emptyWarning : ProjOutcome
  | fitted (slope intercept r2 next : ℚ) : ProjOutcome
  | fitError : ProjOutcome
deriving DecidableEq

/-- The values selected for one category, in table order
(`df_cat = df[df['Category'] == category]`, `y_values =
df_cat['Value'].values`). -/
def valsFor (df : List TidyRow) (cat : String) : List PyFloat :=
  (df.filter (fun r => r.Category = cat)).map (fun r => r.Value)

/-- Extract exact values; `none` when some value is `nan` or an
infinity (a fit over such inputs yields `NaN`/infinite statistics). -/
def ratVals (vs : List PyFloat) : Option (List ℚ) :=
  vs.mapM (fun v => match v with
    | PyFloat.num q => some q
    | _ => none)

/-- `scipy.stats.linregress(x_indices, y_values)` with
`x_indices = range(len(y_values))`: closed-form least-squares slope,
intercept and coefficient of determination over exact rationals.
`none` models the failure modes: the `ValueError` raised on empty
input and the `NaN` slope produced when the x-variance is zero
(fewer than two points). -/
def linregressQ (ys : List ℚ) : Option (ℚ × ℚ × ℚ) :=
  let n : ℕ := ys.length
  let xs : List ℚ := (List.range n).map (fun i => (i : ℚ))
  let sx := xs.sum
  let sy := ys.sum
  let sxx := (xs.map (fun x => x * x)).sum
  let sxy := ((xs.zip ys).map (fun p => p.1 * p.2)).sum
  let syy := (ys.map (fun y => y * y)).sum
  let den := (n : ℚ) * sxx - sx * sx
  if n = 0 ∨ den = 0 then none
  else
    let slope := ((n : ℚ) * sxy - sx * sy) / den
    let intercept := (sy - slope * sx) / (n : ℚ)
    let dfac := (n : ℚ) * syy - sy * sy
    let r2 := if dfac = 0 then 0 else ((n : ℚ) * sxy - sx * sy) ^ 2 / (den * dfac)
    some (slope, intercept, r2)

/-- `regression_projection` of `ExternalSector.py` (lines 88–110) and
`PublicFinances.py` (lines 126–148): guard the empty selection with a
warning and return, otherwise fit and project one step ahead
(`next_val = slope * len(x_indices) + intercept`). -/
def regression_projection (df : List TidyRow) (cat : String) : ProjOutcome :=
  let vs := valsFor df cat
  if vs.isEmpty then ProjOutcome.emptyWarning
  else
    match ratVals vs with
    | none => ProjOutcome.fitError
    | some ys =>
      match linregressQ ys with
      | none => ProjOutcome.fitError
      | some t => ProjOutcome.fitted t.1 t.2.1 t.2.2 (t.1 * (ys.length : ℚ) + t.2.1)

/-- `regression_projection` of `RealSector.py` (lines 53–70): the same
fit and projection but with no empty-selection guard — `linregress` is
called even when zero rows match. -/
def regression_projectionRS (df : List TidyRow) (cat : String) : ProjOutcome :=
  let vs := valsFor df cat
  match ratVals vs with
  | none => ProjOutcome.fitError
  | some ys =>
    match linregressQ ys with
    | none => ProjOutcome.fitError
    | some t => ProjOutcome.fitted t.1 t.2.1 t.2.2 (t.1 * (ys.length : ℚ) + t.2.1)

/-- The decimal digit character for a value below ten. -/
def digitChar : ℕ → Char
  | 0 => '0'
  | 1 => '1'
  | 2 => '2'
  | 3 => '3'
  | 4 => '4'
  | 5 => '5'
  | 6 => '6'
  | 7 => '7'
  | 8 => '8'
  | 9 => '9'
  | _ => '*'

/-- Big-endian digit characters of `n`, accumulated onto `acc`; the
`fuel` argument (any bound on the digit count, e.g. `n` itself) keeps
the recursion structural. -/
def natDigitsFuel : ℕ → ℕ → List Char → List Char
  | 0, _, acc => acc
  | fuel + 1, n, acc =>
    if n = 0 then acc
    else natDigitsFuel fuel (n / 10) (digitChar (n % 10) :: acc)

/-- Decimal digit characters of `n` (`0` renders as `"0"`). -/
def natDigits (n : ℕ) : List Char :=
  if n = 0 then [digitChar 0] else natDigitsFuel n n []

/-- Insert a comma after every three leading characters of a reversed
digit string. -/
def chunk3Rev : List Char → List Char
  | a :: b :: c :: d :: rest => a :: b :: c :: ',' :: chunk3Rev (d :: rest)
  | l => l

/-- Insert a thousands-separator comma before every group of three
digits, counted from the right — the integer-part layout of Python's
`f"{n:,}"` format. -/
def commaGroup (ds : List Char) : List Char :=
  (chunk3Rev ds.reverse).reverse

/-- Modelled from the spec: "formatting N with thousands separators"
(the repository renders no numbers itself — this is the claim-side
renderer for the coercion round-trip).  A decimal number
`±(a + frac/10^|frac|)` is written as an optional sign, the digits of
`a` in comma-separated groups of three, and an optional fraction part
after a point, matching Python's `f"{N:,}"` layout. -/
def renderCommas (neg : Bool) (a : ℕ) (frac : List Char) : String :=
  String.mk ((if neg then ['-'] else []) ++ commaGroup (natDigits a) ++
    (if frac.isEmpty then [] else '.' :: frac))

lemma digitsToNat_foldl (B : List Char) (a : ℕ) :
    B.foldl (fun n c => 10 * n + charVal c) a = a * 10 ^ B.length + digitsToNat B := by
  induction B generalizing a with
  | nil => simp [digitsToNat]
  | cons c B ih =>
    have hc : digitsToNat (c :: B) = charVal c * 10 ^ B.length + digitsToNat B := by
      show List.foldl _ (10 * 0 + charVal c) B = _
      rw [ih]
      ring_nf
    simp only [List.foldl_cons, ih, hc, List.length_cons]
    ring

lemma digitsToNat_cons (c : Char) (B : List Char) :
    digitsToNat (c :: B) = charVal c * 10 ^ B.length + digitsToNat B := by
  show List.foldl _ (10 * 0 + charVal c) B = _
  rw [digitsToNat_foldl]
  ring_nf

lemma charVal_digitChar {d : ℕ} (h : d < 10) : charVal (digitChar d) = d := by
  interval_cases d <;> rfl

lemma isDigit_digitChar {d : ℕ} (h : d < 10) : (digitChar d).isDigit = true := by
  interval_cases d <;> rfl

lemma digitsToNat_natDigitsFuel :
    ∀ (fuel n : ℕ) (acc : List Char), n ≤ fuel →
      digitsToNat (natDigitsFuel fuel n acc) = n * 10 ^ acc.length + digitsToNat acc := by
  intro fuel
  induction fuel with
  | zero =>
    intro n acc hn
    interval_cases n
    simp [natDigitsFuel]
  | succ fuel ih =>
    intro n acc hn
    rw [natDigitsFuel]
    by_cases h0 : n = 0
    · simp [h0]
    · rw [if_neg h0]
      have hdiv : n / 10 ≤ fuel := by
        have := Nat.div_lt_self (Nat.pos_of_ne_zero h0) (by norm_num : 1 < 10)
        omega
      rw [ih (n / 10) _ hdiv, digitsToNat_cons,
        charVal_digitChar (Nat.mod_lt n (by norm_num))]
      have hsplit : n = n / 10 * 10 + n % 10 := by omega
      simp only [List.length_cons, pow_succ]
      calc n / 10 * (10 ^ acc.length * 10) + (n % 10 * 10 ^ acc.length + digitsToNat acc)
          = (n / 10 * 10 + n % 10) * 10 ^ acc.length + digitsToNat acc := by ring
        _ = n * 10 ^ acc.length + digitsToNat acc := by rw [← hsplit]

lemma digitsToNat_natDigits (n : ℕ) : digitsToNat (natDigits n) = n := by
  rw [natDigits]
  by_cases h0 : n = 0
  · simp [h0]
    rfl
  · rw [if_neg h0, digitsToNat_natDigitsFuel n n [] (le_refl n)]
    simp [digitsToNat]

lemma mem_natDigitsFuel :
    ∀ (fuel n : ℕ) (acc : List Char) (c : Char), c ∈ natDigitsFuel fuel n acc →
      c ∈ acc ∨ c.isDigit = true := by
  intro fuel
  induction fuel with
  | zero =>
    intro n acc c hc
    exact Or.inl hc
  | succ fuel ih =>
    intro n acc c hc
    rw [natDigitsFuel] at hc
    by_cases h0 : n = 0
    · rw [if_pos h0] at hc
      exact Or.inl hc
    · rw [if_neg h0] at hc
      rcases ih (n / 10) _ c hc with hmem | hdig
      · rcases List.mem_cons.mp hmem with hc0 | hacc
        · subst hc0
          exact Or.inr (isDigit_digitChar (Nat.mod_lt n (by norm_num)))
        · exact Or.inl hacc
      · exact Or.inr hdig

lemma mem_natDigits {n : ℕ} {c : Char} (h : c ∈ natDigits n) : c.isDigit = true := by
  rw [natDigits] at h
  by_cases h0 : n = 0
  · rw [if_pos h0] at h
    simp at h
    subst h
    rfl
  · rw [if_neg h0] at h
    rcases mem_natDigitsFuel n n [] c h with hmem | hdig
    · simp at hmem
    · exact hdig

lemma natDigits_ne_nil (n : ℕ) : natDigits n ≠ [] := by
  by_cases h0 : n = 0
  · simp [natDigits, h0]
  · intro hnil
    have := digitsToNat_natDigits n
    rw [hnil] at this
    simp [digitsToNat] at this
    exact h0 this.symm

lemma ne_comma_of_isDigit {c : Char} (h : c.isDigit = true) : c ≠ ',' := by
  rintro rfl
  exact absurd h (by decide)

lemma ne_dot_of_isDigit {c : Char} (h : c.isDigit = true) : c ≠ '.' := by
  rintro rfl
  exact absurd h (by decide)

lemma not_ws_of_isDigit {c : Char} (h : c.isDigit = true) : c.isWhitespace = false := by
  cases hw : c.isWhitespace
  · rfl
  · rw [Char.isWhitespace] at hw
    simp only [Bool.or_eq_true, decide_eq_true_eq] at hw
    rcases hw with ((rfl | rfl) | rfl) | rfl <;> exact absurd h (by decide)

lemma filter_chunk3Rev (l : List Char) :
    (chunk3Rev l).filter (fun c => c ≠ ',') = l.filter (fun c => c ≠ ',') := by
  induction l using chunk3Rev.induct with
  | case1 a b c d rest ih =>
    rw [chunk3Rev]
    have h1 : (a :: b :: c :: ',' :: chunk3Rev (d :: rest)) =
        [a, b, c] ++ [','] ++ chunk3Rev (d :: rest) := rfl
    have h2 : (a :: b :: c :: d :: rest) = [a, b, c] ++ d :: rest := rfl
    rw [h1, h2, List.filter_append, List.filter_append, List.filter_append, ih]
    have h3 : [','].filter (fun c => c ≠ ',') = [] := by decide
    rw [h3, List.append_nil]
  | case2 l h =>
    rw [chunk3Rev.eq_def]
    split
    · exact absurd rfl (h _ _ _ _ _)
    · rfl

lemma filter_ne_comma_of_digits {l : List Char} (h : ∀ c ∈ l, c.isDigit = true) :
    l.filter (fun c => c ≠ ',') = l :=
  List.filter_eq_self.mpr (fun c hc => by
    simpa using ne_comma_of_isDigit (h c hc))

lemma filter_commaGroup_of_digits {l : List Char} (h : ∀ c ∈ l, c.isDigit = true) :
    (commaGroup l).filter (fun c => c ≠ ',') = l := by
  rw [commaGroup, List.filter_reverse, filter_chunk3Rev, ← List.filter_reverse,
    List.reverse_reverse, filter_ne_comma_of_digits h]

lemma dropWhile_eq_self_of_all {p : Char → Bool} {l : List Char}
    (h : ∀ c ∈ l, p c = false) : l.dropWhile p = l := by
  cases l with
  | nil => rfl
  | cons c rest =>
    rw [List.dropWhile_cons, h c (List.mem_cons_self c rest)]
    simp

lemma trimChars_eq_self_of_no_ws {l : List Char}
    (h : ∀ c ∈ l, c.isWhitespace = false) : trimChars l = l := by
  rw [trimChars, dropWhile_eq_self_of_all h, dropWhile_eq_self_of_all (fun c hc => h c
    (List.mem_reverse.mp hc)), List.reverse_reverse]

lemma takeWhile_eq_self_of_all {p : Char → Bool} {l : List Char}
    (h : ∀ c ∈ l, p c = true) : l.takeWhile p = l := by
  induction l with
  | nil => rfl
  | cons c rest ih =>
    rw [List.takeWhile_cons, h c (List.mem_cons_self c rest)]
    simp [ih (fun x hx => h x (List.mem_cons_of_mem c hx))]

lemma dropWhile_eq_nil_of_all {p : Char → Bool} {l : List Char}
    (h : ∀ c ∈ l, p c = true) : l.dropWhile p = [] := by
  induction l with
  | nil => rfl
  | cons c rest ih =>
    rw [List.dropWhile_cons, h c (List.mem_cons_self c rest)]
    simp [ih (fun x hx => h x (List.mem_cons_of_mem c hx))]

lemma takeWhile_append_of_all {p : Char → Bool} {A : List Char} (B : List Char)
    (hA : ∀ c ∈ A, p c = true) : (A ++ B).takeWhile p = A ++ B.takeWhile p := by
  induction A with
  | nil => rfl
  | cons a A ih =>
    rw [List.cons_append, List.takeWhile_cons, hA a (List.mem_cons_self a A)]
    simp [ih (fun x hx => hA x (List.mem_cons_of_mem a hx))]

lemma dropWhile_append_of_all {p : Char → Bool} {A : List Char} (B : List Char)
    (hA : ∀ c ∈ A, p c = true) : (A ++ B).dropWhile p = B.dropWhile p := by
  induction A with
  | nil => rfl
  | cons a A ih =>
    rw [List.cons_append, List.dropWhile_cons, hA a (List.mem_cons_self a A)]
    simp [ih (fun x hx => hA x (List.mem_cons_of_mem a hx))]

lemma ne_dot_decide_of_digits {D : List Char} (hD : ∀ c ∈ D, c.isDigit = true) :
    ∀ c ∈ D, (decide (c ≠ '.')) = true := fun c hc => by
  simpa using ne_dot_of_isDigit (hD c hc)

lemma parseMantissa_digits {D : List Char} (hD : ∀ c ∈ D, c.isDigit = true)
    (hne : D ≠ []) : parseMantissa D = some ((digitsToNat D : ℕ) : ℚ) := by
  have hdrop : D.dropWhile (fun c => c ≠ '.') = [] :=
    dropWhile_eq_nil_of_all (ne_dot_decide_of_digits hD)
  have htake : D.takeWhile (fun c => c ≠ '.') = D :=
    takeWhile_eq_self_of_all (ne_dot_decide_of_digits hD)
  have hall : allDigits D = true := List.all_eq_true.mpr (fun c hc => hD c hc)
  have hipne : D.isEmpty = false := by
    cases D with
    | nil => exact absurd rfl hne
    | cons d D => rfl
  simp only [parseMantissa]
  rw [hdrop, htake]
  simp [hall, hipne]

lemma parseMantissa_digits_frac {D F : List Char} (hD : ∀ c ∈ D, c.isDigit = true)
    (hF : ∀ c ∈ F, c.isDigit = true) (hne : D ≠ []) :
    parseMantissa (D ++ '.' :: F) =
      some (mkRat ((digitsToNat D * 10 ^ F.length + digitsToNat F : ℕ) : ℤ)
        (10 ^ F.length)) := by
  have hdrop : (D ++ '.' :: F).dropWhile (fun c => c ≠ '.') = '.' :: F := by
    rw [dropWhile_append_of_all _ (ne_dot_decide_of_digits hD), List.dropWhile_cons]
    simp
  have htake : (D ++ '.' :: F).takeWhile (fun c => c ≠ '.') = D := by
    rw [takeWhile_append_of_all _ (ne_dot_decide_of_digits hD), List.takeWhile_cons]
    simp
  have hallD : allDigits D = true := List.all_eq_true.mpr (fun c hc => hD c hc)
  have hallF : allDigits F = true := List.all_eq_true.mpr (fun c hc => hF c hc)
  have hipne : D.isEmpty = false := by
    cases D with
    | nil => exact absurd rfl hne
    | cons d D => rfl
  simp only [parseMantissa]
  rw [hdrop, htake]
  simp [hallD, hallF, hipne]

lemma ne_plus_of_isDigit {c : Char} (h : c.isDigit = true) : c ≠ '+' := by
  rintro rfl
  exact absurd h (by decide)

lemma ne_minus_of_isDigit {c : Char} (h : c.isDigit = true) : c ≠ '-' := by
  rintro rfl
  exact absurd h (by decide)

lemma ne_expLower_of_isDigit {c : Char} (h : c.isDigit = true) : c ≠ 'e' := by
  rintro rfl
  exact absurd h (by decide)

lemma ne_expUpper_of_isDigit {c : Char} (h : c.isDigit = true) : c ≠ 'E' := by
  rintro rfl
  exact absurd h (by decide)

lemma asciiLower_digit {c : Char} (h : c.isDigit = true) : asciiLower c = c := by
  rw [asciiLower, if_neg, if_neg, if_neg, if_neg, if_neg, if_neg]
  all_goals rintro rfl
  all_goals exact absurd h (by decide)

lemma pyNumber_no_exp {D : List Char}
    (hdp : ∀ c ∈ D, (decide (c ≠ 'e' ∧ c ≠ 'E')) = true) :
    pyNumber D = parseMantissa D := by
  have hdrop : D.dropWhile (fun c => c ≠ 'e' ∧ c ≠ 'E') = [] :=
    dropWhile_eq_nil_of_all hdp
  have htake : D.takeWhile (fun c => c ≠ 'e' ∧ c ≠ 'E') = D :=
    takeWhile_eq_self_of_all hdp
  simp only [pyNumber]
  rw [hdrop, htake]

lemma stripCommas_rendered {neg : Bool} {a : ℕ} {frac : List Char}
    (hfrac : ∀ c ∈ frac, c.isDigit = true) :
    (renderCommas neg a frac).data.filter (fun c => c ≠ ',') =
      (if neg then ['-'] else []) ++ natDigits a ++
        (if frac.isEmpty then [] else '.' :: frac) := by
  have hdata : (renderCommas neg a frac).data =
      (if neg then ['-'] else []) ++ commaGroup (natDigits a) ++
        (if frac.isEmpty then [] else '.' :: frac) := rfl
  rw [hdata, List.filter_append, List.filter_append,
    filter_commaGroup_of_digits (fun c hc => mem_natDigits hc)]
  congr 1
  · congr 1
    cases neg <;> decide
  · by_cases hf : frac.isEmpty
    · rw [if_pos hf]
      rfl
    · rw [if_neg hf, List.filter_cons, if_pos (by decide),
        filter_ne_comma_of_digits hfrac]

lemma pyBody_digits_rendered {a : ℕ} {frac : List Char}
    (hfrac : ∀ c ∈ frac, c.isDigit = true) :
    pyBody (natDigits a ++ (if frac.isEmpty then [] else '.' :: frac)) =
      some (PyFloat.num (mkRat ((a * 10 ^ frac.length + digitsToNat frac : ℕ) : ℤ)
        (10 ^ frac.length))) := by
  obtain ⟨d, ds, hds⟩ := List.exists_cons_of_ne_nil (natDigits_ne_nil a)
  have hdig : ∀ c ∈ natDigits a, c.isDigit = true := fun c hc => mem_natDigits hc
  have hdd : d.isDigit = true := hdig d (hds ▸ List.mem_cons_self d ds)
  have hlow : (natDigits a ++ (if frac.isEmpty then [] else '.' :: frac)).map asciiLower =
      d :: ((ds ++ (if frac.isEmpty then [] else '.' :: frac)).map asciiLower) := by
    rw [hds, List.cons_append, List.map_cons, asciiLower_digit hdd]
  have hnenan : ¬((natDigits a ++ (if frac.isEmpty then [] else '.' :: frac)).map
      asciiLower = ['n', 'a', 'n']) := by
    rw [hlow]
    intro heq
    injection heq with h1 _
    rw [h1] at hdd
    exact absurd hdd (by decide)
  have hneinf : ¬((natDigits a ++ (if frac.isEmpty then [] else '.' :: frac)).map
        asciiLower = ['i', 'n', 'f'] ∨
      (natDigits a ++ (if frac.isEmpty then [] else '.' :: frac)).map
        asciiLower = ['i', 'n', 'f', 'i', 'n', 'i', 't', 'y']) := by
    rw [hlow]
    rintro (heq | heq) <;>
      (injection heq with h1 _
       rw [h1] at hdd
       exact absurd hdd (by decide))
  rw [pyBody, if_neg hnenan, if_neg hneinf]
  have hchars : ∀ c ∈ natDigits a ++ (if frac.isEmpty then [] else '.' :: frac),
      (decide (c ≠ 'e' ∧ c ≠ 'E')) = true := by
    intro c hc
    rcases List.mem_append.mp hc with h1 | h2
    · have hcd := hdig c h1
      simp [ne_expLower_of_isDigit hcd, ne_expUpper_of_isDigit hcd]
    · by_cases hf : frac.isEmpty
      · rw [if_pos hf] at h2
        simp at h2
      · rw [if_neg hf] at h2
        rcases List.mem_cons.mp h2 with rfl | hmem
        · decide
        · have hcd := hfrac c hmem
          simp [ne_expLower_of_isDigit hcd, ne_expUpper_of_isDigit hcd]
  rw [pyNumber_no_exp hchars]
  by_cases hf : frac.isEmpty
  · have hfnil : frac = [] := List.isEmpty_eq_true.mp hf
    subst hfnil
    have hif : (if ([] : List Char).isEmpty = true then ([] : List Char)
        else '.' :: []) = [] := rfl
    rw [hif, List.append_nil,
      parseMantissa_digits hdig (natDigits_ne_nil a), digitsToNat_natDigits]
    norm_num [digitsToNat, Rat.mkRat_one]
  · rw [if_neg hf, parseMantissa_digits_frac hdig hfrac (natDigits_ne_nil a),
      digitsToNat_natDigits]
    rfl

lemma pyParse_rendered {neg : Bool} {a : ℕ} {frac : List Char}
    (hfrac : ∀ c ∈ frac, c.isDigit = true) :
    pyParse ((if neg then ['-'] else []) ++ natDigits a ++
        (if frac.isEmpty then [] else '.' :: frac)) =
      some (PyFloat.num ((if neg then (-1 : ℚ) else 1) *
        mkRat ((a * 10 ^ frac.length + digitsToNat frac : ℕ) : ℤ) (10 ^ frac.length))) := by
  obtain ⟨d, ds, hds⟩ := List.exists_cons_of_ne_nil (natDigits_ne_nil a)
  have hdd : d.isDigit = true := mem_natDigits (hds ▸ List.mem_cons_self d ds)
  cases neg with
  | true =>
    have hshape : (if (true : Bool) then ['-'] else []) ++ natDigits a ++
        (if frac.isEmpty then [] else '.' :: frac) =
        '-' :: (natDigits a ++ (if frac.isEmpty then [] else '.' :: frac)) := rfl
    rw [hshape, pyParse]
    rw [if_neg (by decide : ¬('-' : Char) = '+'), if_pos rfl,
      pyBody_digits_rendered hfrac]
    simp [pyNeg]
  | false =>
    have hshape : (if (false : Bool) then ['-'] else []) ++ natDigits a ++
        (if frac.isEmpty then [] else '.' :: frac) =
        d :: (ds ++ (if frac.isEmpty then [] else '.' :: frac)) := by
      rw [hds]
      rfl
    rw [hshape, pyParse]
    rw [if_neg (ne_plus_of_isDigit hdd), if_neg (ne_minus_of_isDigit hdd)]
    have hback : d :: (ds ++ (if frac.isEmpty then [] else '.' :: frac)) =
        natDigits a ++ (if frac.isEmpty then [] else '.' :: frac) := by
      rw [hds]
      rfl
    rw [hback, pyBody_digits_rendered hfrac]
    simp

lemma no_ws_rendered {neg : Bool} {a : ℕ} {frac : List Char}
    (hfrac : ∀ c ∈ frac, c.isDigit = true) :
    ∀ c ∈ (if neg then ['-'] else []) ++ natDigits a ++
      (if frac.isEmpty then [] else '.' :: frac), c.isWhitespace = false := by
  intro c hc
  rcases List.mem_append.mp hc with h1 | h2
  · rcases List.mem_append.mp h1 with hs | hd
    · cases neg with
      | true =>
        simp at hs
        subst hs
        decide
      | false => simp at hs
    · exact not_ws_of_isDigit (mem_natDigits hd)
  · by_cases hf : frac.isEmpty
    · rw [if_pos hf] at h2
      simp at h2
    · rw [if_neg hf] at h2
      rcases List.mem_cons.mp h2 with rfl | hmem
      · decide
      · exact not_ws_of_isDigit (hfrac c hmem)

/-- C6 skeleton: coercing a comma-rendered decimal recovers its exact
value. -/
theorem c6_round_trip (neg : Bool) (a : ℕ) (frac : List Char)
    (hfrac : frac.all Char.isDigit = true) :
    coerceNumeric (renderCommas neg a frac) =
      some ((if neg then (-1 : ℚ) else 1) *
        ((a : ℚ) + (digitsToNat frac : ℚ) / 10 ^ frac.length)) := by
  have hfr : ∀ c ∈ frac, c.isDigit = true := fun c hc => List.all_eq_true.mp hfrac c hc
  have hstrip : (stripCommas (renderCommas neg a frac)).data =
      (if neg then ['-'] else []) ++ natDigits a ++
        (if frac.isEmpty then [] else '.' :: frac) := by
    show (renderCommas neg a frac).data.filter (fun c => c ≠ ',') = _
    exact stripCommas_rendered hfr
  have hpy : pyFloat? (stripCommas (renderCommas neg a frac)) =
      some (PyFloat.num ((if neg then (-1 : ℚ) else 1) *
        mkRat ((a * 10 ^ frac.length + digitsToNat frac : ℕ) : ℤ)
          (10 ^ frac.length))) := by
    rw [pyFloat?, hstrip, trimChars_eq_self_of_no_ws (no_ws_rendered hfr),
      pyParse_rendered hfr]
  have hmk : mkRat ((a * 10 ^ frac.length + digitsToNat frac : ℕ) : ℤ)
      (10 ^ frac.length) =
      (a : ℚ) + (digitsToNat frac : ℚ) / 10 ^ frac.length := by
    rw [Rat.mkRat_eq_divInt, Rat.divInt_eq_div]
    have h10 : ((10 : ℚ)) ^ frac.length ≠ 0 := by positivity
    push_cast
    field_simp
  simp only [coerceNumeric, hpy]
  rw [hmk]

lemma hierStep_fst (sec c : String) :
    (hierStep sec c).1 = if c ∈ sectionHeaders then c else sec := by
  rw [hierStep]
  split_ifs with h1 h2 <;> rfl

lemma hierGo_append (sec : String) (l1 l2 : List String) :
    hierGo sec (l1 ++ l2) = hierGo sec l1 ++ hierGo (stateAfter sec l1) l2 := by
  induction l1 generalizing sec with
  | nil => rfl
  | cons c l1 ih =>
    rw [List.cons_append, hierGo, hierGo, stateAfter, ih, hierStep_fst]
    rfl

lemma hierGo_length (sec : String) (l : List String) :
    (hierGo sec l).length = l.length := by
  induction l generalizing sec with
  | nil => rfl
  | cons c l ih =>
    rw [hierGo, List.length_cons, List.length_cons, ih]

lemma stateAfter_eq_lastHeader (l : List String) :
    ∀ sec, stateAfter sec l =
      match lastHeader l with
      | some h => h
      | none => sec := by
  induction l with
  | nil => intro sec; rfl
  | cons c rest ih =>
    intro sec
    rw [stateAfter, ih, lastHeader]
    cases hlh : lastHeader rest with
    | some h => rfl
    | none =>
      by_cases hc : c ∈ sectionHeaders
      · simp [hc]
      · simp [hc]

lemma lastHeader_mem {l : List String} {h : String}
    (hl : lastHeader l = some h) : h ∈ sectionHeaders := by
  induction l with
  | nil => exact absurd hl (by simp [lastHeader])
  | cons c rest ih =>
    rw [lastHeader] at hl
    cases hlh : lastHeader rest with
    | some h2 =>
      rw [hlh] at hl
      exact ih (hlh.trans (by injection hl with he; rw [he]))
    | none =>
      rw [hlh] at hl
      by_cases hc : c ∈ sectionHeaders
      · rw [if_pos hc] at hl
        injection hl with he
        rw [← he]
        exact hc
      · rw [if_neg hc] at hl
        exact absurd hl (by simp)

lemma sectionHeader_ne_empty {h : String} (hm : h ∈ sectionHeaders) : h ≠ "" := by
  simp only [sectionHeaders, List.mem_cons, List.not_mem_nil, or_false] at hm
  rcases hm with rfl | rfl | rfl <;> decide

lemma cleanNumbers_mem {rows : List RawRow} {r : TidyRow} (h : r ∈ cleanNumbers rows) :
    ∃ a ∈ rows, ∃ v : PyFloat, pyFloat? (stripCommas (cellStr a.Value)) = some v ∧
      v ≠ PyFloat.nan ∧ r = ⟨a.Category, a.Year, v⟩ := by
  rw [cleanNumbers] at h
  obtain ⟨a, ha, hfa⟩ := List.mem_filterMap.mp h
  cases hq : pyFloat? (stripCommas (cellStr a.Value)) with
  | none =>
    rw [hq] at hfa
    exact Option.noConfusion hfa
  | some v =>
    rw [hq] at hfa
    cases v with
    | nan => exact Option.noConfusion hfa
    | inf b =>
      injection hfa with he
      exact ⟨a, ha, PyFloat.inf b, hq, fun hh => PyFloat.noConfusion hh, he.symm⟩
    | num q =>
      injection hfa with he
      exact ⟨a, ha, PyFloat.num q, hq, fun hh => PyFloat.noConfusion hh, he.symm⟩

lemma cleanNumbers_retains {rows : List RawRow} {a : RawRow} (ha : a ∈ rows)
    {q : ℚ} (hq : coerceNumeric (cellStr a.Value) = some q) :
    (⟨a.Category, a.Year, PyFloat.num q⟩ : TidyRow) ∈ cleanNumbers rows := by
  have hp : pyFloat? (stripCommas (cellStr a.Value)) = some (PyFloat.num q) := by
    rw [coerceNumeric] at hq
    cases hv : pyFloat? (stripCommas (cellStr a.Value)) with
    | none =>
      rw [hv] at hq
      exact Option.noConfusion hq
    | some v =>
      rw [hv] at hq
      cases v with
      | nan => exact Option.noConfusion hq
      | inf b => exact Option.noConfusion hq
      | num q2 =>
        injection hq with he
        rw [he]
  refine List.mem_filterMap.mpr ⟨a, ha, ?_⟩
  rw [hp]

/-- C1 counterexample: two supported pipelines violate the claimed
invariant at concrete grids.  The Real-Sector pipeline (no `dropna`,
no `errors='coerce'`) retains a missing cell as a `NaN`-valued row;
and the External-Sector simple pipeline retains a cell spelling
`"inf"` as a non-finite value, because `pd.to_numeric` coerces it to
`inf` and `dropna` removes only `NaN` — so "every Value is a finite
number" and "no row is ever retained with a null/NaN Value" both
fail. -/
theorem c1_counterexample :
    realSectorNormalize ["Category", "2020"] [["A", ""]] =
      some [⟨"A", "2020", PyFloat.nan⟩] ∧
    extSimpleNormalize ["Item", "2020"] [["A", "5"], ["B", "inf"]] =
      some [⟨"A", "2020", PyFloat.num 5⟩, ⟨"B", "2020", PyFloat.inf false⟩] :=
  ⟨by rfl, by rfl⟩

/-- C1 (amended): for the External-Sector pipelines (simple and
merged-header) and the Public-Finances hierarchical pipeline — all of
which funnel through `pd.to_numeric(..., errors='coerce')` plus
`dropna` — every retained row's `Value` is non-NaN: unparseable text
and missing cells become `NaN` and are dropped.  The invariant is not
finiteness (an `inf`/`Infinity` cell is coerced to an infinity and
retained, since `dropna` removes only `NaN`), and the Real-Sector
pipeline guarantees neither: it retains `NaN` for missing cells and
aborts wholesale on unparseable text. -/
theorem c1_amended_thm : ∀ (header : List String) (rows : List (List String))
    (r : TidyRow),
    (∀ out, extSimpleNormalize header rows = some out → r ∈ out →
      r.Value ≠ PyFloat.nan) ∧
    (∀ out, usdNormalize header rows = some out → r ∈ out →
      r.Value ≠ PyFloat.nan) ∧
    (r ∈ pfNetBorrowNormalize header rows → r.Value ≠ PyFloat.nan) := by
  intro header rows r
  refine ⟨?_, ?_, ?_⟩
  · intro out hout hr
    simp only [extSimpleNormalize] at hout
    cases hdm : extDropMeta (extDropSN header rows).2 with
    | none =>
      rw [hdm] at hout
      exact Option.noConfusion hout
    | some rows2 =>
      rw [hdm] at hout
      injection hout with he
      rw [← he] at hr
      obtain ⟨a, _, v, _, hvn, hr'⟩ := cleanNumbers_mem hr
      rw [hr']
      exact hvn
  · intro out hout hr
    rw [usdNormalize] at hout
    cases hfl : usdFiltered header rows with
    | none =>
      rw [hfl] at hout
      exact Option.noConfusion hout
    | some fl =>
      rw [hfl] at hout
      injection hout with he
      rw [← he] at hr
      obtain ⟨a, _, v, _, hvn, hr'⟩ := cleanNumbers_mem hr
      rw [hr']
      exact hvn
  · intro hr
    simp only [pfNetBorrowNormalize] at hr
    obtain ⟨a, _, v, _, hvn, hr'⟩ := cleanNumbers_mem hr
    rw [hr']
    exact hvn

/-- C1 witness: the amended invariant instantiated on a concrete
Public-Finances grid. -/
theorem c1_witness :
    (⟨"", "2022", PyFloat.num 100⟩ : TidyRow).Value ≠ PyFloat.nan :=
  (c1_amended_thm ["H1", "H2", "2022"] [["", "", "100"]]
    ⟨"", "2022", PyFloat.num 100⟩).2.2
    (by rw [show pfNetBorrowNormalize ["H1", "H2", "2022"] [["", "", "100"]] =
          [⟨"", "2022", PyFloat.num 100⟩] from rfl]
        exact List.mem_singleton.mpr rfl)

/-- C2 counterexample: a Net-Domestic-Borrowings raw row whose two
label cells are empty gets the combined category `""` (which trims to
the empty string), yet the row is retained in the output tidy table —
no pipeline filters empty categories before (or after) value
coercion. -/
theorem c2_counterexample :
    pfNetBorrowNormalize ["H1", "H2", "2022"] [["", "", "100"]] =
      [⟨"", "2022", PyFloat.num 100⟩] ∧
    strStrip (⟨"", "2022", PyFloat.num 100⟩ : TidyRow).Category = "" :=
  ⟨by rfl, by rfl⟩

/-- C2 (amended): no empty-category exclusion exists; retention is
decided by value coercion alone.  Any melted row whose value text
coerces is kept with its category unchanged — including the empty
category. -/
theorem c2_amended_thm : ∀ (rows : List RawRow) (a : RawRow), a ∈ rows →
    ∀ q : ℚ, coerceNumeric (cellStr a.Value) = some q →
    (⟨a.Category, a.Year, PyFloat.num q⟩ : TidyRow) ∈ cleanNumbers rows := by
  intro rows a ha q hq
  exact cleanNumbers_retains ha hq

/-- C2 witness: an empty-category raw row with a coercible value is
retained by the shared coercion stage. -/
theorem c2_witness :
    (⟨"", "2022", PyFloat.num 100⟩ : TidyRow) ∈
      cleanNumbers [⟨"", "2022", "100"⟩] :=
  c2_amended_thm [⟨"", "2022", "100"⟩] ⟨"", "2022", "100"⟩
    (List.mem_singleton.mpr rfl) 100 (by rfl)

/-- C3 counterexample: on the spec's own test rows the combined labels
are `"A Gross Borrowings"`, `"T-Bills"`, `"B Payments"`; the first
never equals the fixed header `"Gross Borrowings"`, so no section is
ever activated and the claimed categories do not appear. -/
theorem c3_counterexample :
    hierCategories [["A", "Gross Borrowings", "", "100"], ["", "T-Bills", "", "40"],
      ["B", "Payments", "", "60"]] ≠
      ["Gross Borrowings", "Gross Borrowings - T-Bills", "Payments"] := by
  rw [show hierCategories [["A", "Gross Borrowings", "", "100"],
      ["", "T-Bills", "", "40"], ["B", "Payments", "", "60"]] =
      ["A Gross Borrowings", "T-Bills", "B Payments"] from rfl]
  decide

/-- C3 (amended): because the normalizer concatenates the section
marker into the label (`"A" + " " + "Gross Borrowings"`), the given
rows yield `"A Gross Borrowings"`, `"T-Bills"`, `"B Payments"`; the
claimed categories arise exactly when the marker cells are blank. -/
theorem c3_amended_thm :
    hierCategories [["A", "Gross Borrowings", "", "100"], ["", "T-Bills", "", "40"],
      ["B", "Payments", "", "60"]] = ["A Gross Borrowings", "T-Bills", "B Payments"] ∧
    hierCategories [["", "Gross Borrowings", "", "100"], ["", "T-Bills", "", "40"],
      ["", "Payments", "", "60"]] =
      ["Gross Borrowings", "Gross Borrowings - T-Bills", "Payments"] := ⟨by rfl, by rfl⟩

/-- C4 counterexample: with zero matching rows the Real-Sector
`regression_projection` (which has no emptiness guard) reaches
`linregress` and fails, instead of signalling the empty selection the
way the External-Sector/Public-Finances version does. -/
theorem c4_counterexample :
    regression_projectionRS [] "GDP at Constant Prices" = ProjOutcome.fitError ∧
    regression_projection [] "GDP at Constant Prices" = ProjOutcome.emptyWarning :=
  ⟨by rfl, by rfl⟩

/-- C4 (amended): the External-Sector and Public-Finances
`regression_projection` signal an empty selection distinctly (warning
and early return, no fit attempted); the Real-Sector copy lacks the
guard. -/
theorem c4_amended_thm : ∀ (df : List TidyRow) (cat : String),
    df.filter (fun r => r.Category = cat) = [] →
    regression_projection df cat = ProjOutcome.emptyWarning := by
  intro df cat h
  have hv : valsFor df cat = [] := by
    rw [valsFor, h]
    rfl
  simp [regression_projection, hv]

/-- C4 witness: the guarded projection at a concrete empty table. -/
theorem c4_witness : regression_projection [] "Exports" = ProjOutcome.emptyWarning :=
  c4_amended_thm [] "Exports" rfl

/-- C5: the USD-conversion-rates normalizer never emits a row with
`Category = "Middle"` (the policy filter at `ExternalSector.py`
line 57 survives the coercion stage), and the filter drops nothing
else: every melted row with a different category is retained by it. -/
theorem c5_thm : ∀ (header : List String) (rows : List (List String)),
    (∀ out, usdNormalize header rows = some out →
      ∀ r ∈ out, r.Category ≠ "Middle") ∧
    (∀ m, usdMelt header rows = some m → ∀ a ∈ m, a.Category ≠ "Middle" →
      ∀ f, usdFiltered header rows = some f → a ∈ f) := by
  intro header rows
  constructor
  · intro out hout r hr
    rw [usdNormalize] at hout
    cases hfl : usdFiltered header rows with
    | none =>
      rw [hfl] at hout
      exact Option.noConfusion hout
    | some fl =>
      rw [hfl] at hout
      injection hout with he
      rw [← he] at hr
      obtain ⟨a, haf, v, hv, hvn, hr'⟩ := cleanNumbers_mem hr
      rw [usdFiltered] at hfl
      cases hm : usdMelt header rows with
      | none =>
        rw [hm] at hfl
        exact Option.noConfusion hfl
      | some m =>
        rw [hm] at hfl
        injection hfl with hfl'
        rw [← hfl'] at haf
        have hcat := (List.mem_filter.mp haf).2
        rw [hr']
        simpa using hcat
  · intro m hm a ham hane f hf
    rw [usdFiltered, hm] at hf
    injection hf with hf'
    rw [← hf']
    exact List.mem_filter.mpr ⟨ham, by simpa using hane⟩

/-- C5 witness: a concrete Buying/Selling/Middle grid — the Buying row
survives, nothing in the output is `Middle`. -/
theorem c5_witness :
    (⟨"Buying", "2020", PyFloat.num 1⟩ : TidyRow).Category ≠ "Middle" :=
  (c5_thm ["Unnamed: 0", "Buying", "Selling", "Middle"] [["2020", "1", "2", "3"]]).1
    [⟨"Buying", "2020", PyFloat.num 1⟩, ⟨"Selling", "2020", PyFloat.num 2⟩]
    (by rfl) ⟨"Buying", "2020", PyFloat.num 1⟩ (List.mem_cons_self _ _)

/-- C6: coercion round-trip — rendering the decimal number
`±(a + frac/10^|frac|)` with comma thousands separators and coercing
the result recovers the exact value; coercion never fails on such a
string.  (Exact over ℚ, hence within any floating-point tolerance.) -/
theorem c6_thm (neg : Bool) (a : ℕ) (frac : List Char)
    (hfrac : frac.all Char.isDigit = true) :
    coerceNumeric (renderCommas neg a frac) =
      some ((if neg then (-1 : ℚ) else 1) *
        ((a : ℚ) + (digitsToNat frac : ℚ) / 10 ^ frac.length)) :=
  c6_round_trip neg a frac hfrac

/-- C6 witness: the round-trip at the concrete rendering
`"1,234,567.89"`. -/
theorem c6_witness :
    coerceNumeric (renderCommas false 1234567 ['8', '9']) =
      some ((if false then (-1 : ℚ) else 1) *
        (((1234567 : ℕ) : ℚ) +
          ((digitsToNat ['8', '9'] : ℕ) : ℚ) / 10 ^ (['8', '9'] : List Char).length)) :=
  c6_thm false 1234567 ['8', '9'] (by decide)

/-- C7 counterexample: the reader's actual rule is "drop the first row
if ANY cell is missing or ANY cell equals `Annual`"
(`ExternalSector.py` line 44).  The genuine first data row
`["Rice", "", "200"]` — which contains the numeric-looking cell
`"200"` and the non-blank label `"Rice"`, so it is neither entirely
non-numeric nor materially blank — is nevertheless dropped, refuting
"a genuine first data row is never dropped". -/
theorem c7_counterexample :
    extDropMeta [["Rice", "", "200"], ["Wheat", "2", "3"]] =
      some [["Wheat", "2", "3"]] ∧
    numericLooking "200" = true ∧ ("Rice" : String) ≠ "" :=
  ⟨by rfl, by rfl, by decide⟩

/-- C7 (amended): the reader drops the leading row exactly when some
cell is missing/empty or some cell equals `"Annual"`: a first row all
of whose cells are non-empty and differ from `"Annual"` is always
kept, and a first row containing an empty or `"Annual"` cell is always
dropped. -/
theorem c7_amended_thm : ∀ (r : List String) (rest : List (List String)),
    ((∀ c ∈ r, c ≠ "" ∧ c ≠ "Annual") → extDropMeta (r :: rest) = some (r :: rest)) ∧
    ((∃ c ∈ r, c = "" ∨ c = "Annual") → extDropMeta (r :: rest) = some rest) := by
  intro r rest
  constructor
  · intro h
    rw [extDropMeta]
    have hm : extIsMeta r = false := by
      rw [extIsMeta, List.any_eq_false]
      intro c hc
      simp [(h c hc).1, (h c hc).2]
    rw [hm]
    rfl
  · rintro ⟨c, hc, hor⟩
    rw [extDropMeta]
    have hm : extIsMeta r = true := by
      rw [extIsMeta, List.any_eq_true]
      exact ⟨c, hc, by rcases hor with rfl | rfl <;> simp⟩
    rw [hm]
    rfl

/-- C7 witness: a repeated-`"Annual"` metadata row is excluded, the
following data row is kept. -/
theorem c7_witness :
    extDropMeta [["Annual", "Annual"], ["Rice", "10"]] = some [["Rice", "10"]] :=
  (c7_amended_thm ["Annual", "Annual"] [["Rice", "10"]]).2
    ⟨"Annual", List.mem_cons_self _ _, Or.inr rfl⟩

/-- C8: on the single-category series `[10, 20, 30]` the projection
fits slope `10`, intercept `10`, R² `1`, and projects `40` one step
ahead — computed against the positional indices `0, 1, 2` (the `Year`
labels here are non-numeric strings and play no role in the fit). -/
theorem c8_thm : regression_projection
    [⟨"GDP", "2021/22", PyFloat.num 10⟩, ⟨"GDP", "2022/23", PyFloat.num 20⟩,
     ⟨"GDP", "2023/24", PyFloat.num 30⟩] "GDP" =
    ProjOutcome.fitted 10 10 1 40 := by
  have h1 : valsFor
      [⟨"GDP", "2021/22", PyFloat.num 10⟩, ⟨"GDP", "2022/23", PyFloat.num 20⟩,
       ⟨"GDP", "2023/24", PyFloat.num 30⟩] "GDP" =
      [PyFloat.num 10, PyFloat.num 20, PyFloat.num 30] := by rfl
  have h2 : ratVals [PyFloat.num 10, PyFloat.num 20, PyFloat.num 30] =
      some [10, 20, 30] := by rfl
  have h3 : linregressQ [10, 20, 30] = some (10, 10, 1) := by
    norm_num [linregressQ, List.range_succ]
  rw [regression_projection, h1]
  norm_num [h2, h3]

/-- C9: the current-section state after any prefix equals the most
recently matched section header (it is set only by exact matches
against the three fixed headers and never cleared); consequently any
later row whose combined label is non-empty and not itself a header is
prefixed with that most recent section. -/
theorem c9_thm : ∀ (pre : List String) (cat : String) (rest : List String)
    (h : String),
    lastHeader pre = some h → cat ∉ sectionHeaders → cat ≠ "" →
    stateAfter "" pre = h ∧
    (hierLabel (pre ++ cat :: rest))[pre.length]? = some (h ++ " - " ++ cat) := by
  intro pre cat rest h hlh hnot hne
  have hst : stateAfter "" pre = h := by
    rw [stateAfter_eq_lastHeader, hlh]
  refine ⟨hst, ?_⟩
  rw [hierLabel, hierGo_append]
  rw [List.getElem?_append_right (by rw [hierGo_length])]
  rw [hierGo_length]
  have hzero : pre.length - pre.length = 0 := Nat.sub_self pre.length
  rw [hzero, hst, hierGo]
  have hstep : hierStep h cat = (h, h ++ " - " ++ cat) := by
    rw [hierStep, if_neg hnot,
      if_pos ⟨sectionHeader_ne_empty (lastHeader_mem hlh), hne⟩]
  rw [hstep]
  simp

/-- C9 witness: after the header row `"Gross Borrowings"` the
sub-item `"T-Bills"` is prefixed with the active section. -/
theorem c9_witness :
    stateAfter "" ["intro", "Gross Borrowings"] = "Gross Borrowings" ∧
    (hierLabel (["intro", "Gross Borrowings"] ++ "T-Bills" :: []))[
      (["intro", "Gross Borrowings"] : List String).length]? =
      some ("Gross Borrowings" ++ " - " ++ "T-Bills") :=
  c9_thm ["intro", "Gross Borrowings"] "T-Bills" [] "Gross Borrowings"
    (by rfl) (by decide) (by decide)

/-- C10: the coercer strips every comma wherever it stands, so the
malformed thousands strings `"1,2,3"` and `",5"` coerce successfully
to `123` and `5` (no `CoercionError`), and no comma ever survives the
stripping. -/
theorem c10_thm :
    coerceNumeric "1,2,3" = some 123 ∧ coerceNumeric ",5" = some 5 ∧
    ∀ s : String, (stripCommas s).data.count ',' = 0 := by
  refine ⟨by rfl, by rfl, ?_⟩
  intro s
  refine List.count_eq_zero.mpr ?_
  intro hmem
  have hmem' : (',' : Char) ∈ s.data.filter (fun c => c ≠ ',') := hmem
  have := (List.mem_filter.mp hmem').2
  simp at this
